import Mathlib

/-!
Verification of the Kirchhoff-Love thin-plate element kernel
(KirchhoffLovePlate.C / SIMLinElKL.C) against its specification.

The numeric scalars of the C++ code (IEEE doubles) are embedded as elements of
a field; the claim theorems instantiate the field with the rationals where the
statements are decidable, and with the reals for the norm finalization, which
involves a square root.  Dynamically sized matrices (utl::matrix) are embedded
as a dimension pair plus row-major list data with 1-indexed access, and rank-3
arrays (utl::matrix3d) as a dimension triple plus an entry function.
-/

namespace KL

/-- Spatial point, models the Vec3 class (default constructed = origin). -/
structure Vec3 (α : Type) where
  x : α
  y : α
  z : α
deriving DecidableEq

/-- Models the default constructor Vec3(), i.e. the origin. -/
def Vec3.zero {α : Type} [Field α] : Vec3 α := ⟨0, 0, 0⟩

/-- Dynamically sized dense matrix with 1-indexed access, models utl::matrix.
Out-of-range access yields 0 (the embedding never relies on it for in-range
reasoning). -/
structure Mat (α : Type) where
  rows : Nat
  cols : Nat
  data : List (List α)
deriving DecidableEq

namespace Mat

variable {α : Type} [Field α]

/-- 1-indexed entry access: A(i,j) of utl::matrix. -/
def get (A : Mat α) (i j : Nat) : α :=
  (A.data.getD (i - 1) []).getD (j - 1) 0

/-- Build an r x c matrix from an entry function (1-indexed). -/
def ofFn (r c : Nat) (f : Nat → Nat → α) : Mat α :=
  ⟨r, c, (List.range r).map fun i => (List.range c).map fun j => f (i + 1) (j + 1)⟩

/-- The zero-filled r x c matrix, models resize(r,c,true). -/
def zero (r c : Nat) : Mat α := ofFn r c fun _ _ => 0

/-- The n x n identity matrix. -/
def identity (n : Nat) : Mat α := ofFn n n fun i j => if i = j then 1 else 0

/-- Scalar multiple, models utl::matrix::multiply(scalar) (in-place scaling). -/
def smul (c : α) (A : Mat α) : Mat α :=
  ⟨A.rows, A.cols, A.data.map fun row => row.map fun a => c * a⟩

/-- Matrix product, models utl::matrix::multiply(A,B). -/
def mul (A B : Mat α) : Mat α :=
  ofFn A.rows B.cols fun i j =>
    ((List.range A.cols).map fun k => A.get i (k + 1) * B.get (k + 1) j).sum

/-- Matrix transpose. -/
def transpose (A : Mat α) : Mat α := ofFn A.cols A.rows fun i j => A.get j i

/-- Dot product of two coefficient vectors (models utl::vector::dot). -/
def dotv (u v : List α) : α := (List.zipWith (fun a b => a * b) u v).sum

/-- Matrix-vector product A*v (rows of A dotted with v). -/
def mulVec (A : Mat α) (v : List α) : List α :=
  (List.range A.rows).map fun i => dotv (A.data.getD i []) v

/-- Matrix-vector product with the dimension check performed by
utl::matrix::multiply(X,Y): fails unless cols matches the vector length. -/
def mulVecOpt (A : Mat α) (v : List α) : Option (List α) :=
  if A.cols = v.length then some (A.mulVec v) else none

end Mat

export Mat (dotv)

/-- Rank-3 array of basis-function second derivatives with 1-indexed access,
models utl::matrix3d; dimensions are (number of nodes, nsd, nsd). -/
structure Matrix3D (α : Type) where
  n1 : Nat
  n2 : Nat
  n3 : Nat
  entry : Nat → Nat → Nat → α

variable {α : Type} [Field α] [DecidableEq α]

/-- Models KirchhoffLovePlate::formBmatrix.  The output argument is first
resized to nstrc x nenod with zero fill (discarding its previous contents),
then the derivative-index dimensions are validated (failure leaves the
zero-filled matrix behind), then the rows are filled: for nsd = 1 the single
row d2N/dx2, otherwise row 1 = d2N/dx2, row 2 = d2N/dy2, row 3 = 2*d2N/dxdy.
Returns the success flag together with the final state of the output
argument. -/
def formBmatrix (nsd : Nat) (prev : Mat α) (d2NdX2 : Matrix3D α) :
    Bool × Mat α :=
  let nenod := d2NdX2.n1
  let nstrc := nsd * (nsd + 1) / 2
  let _ := prev
  if d2NdX2.n2 ≠ nsd ∨ d2NdX2.n3 ≠ nsd then
    (false, Mat.zero nstrc nenod)
  else
    (true, Mat.ofFn nstrc nenod fun r i =>
      if nsd = 1 then
        (if r = 1 then d2NdX2.entry i 1 1 else 0)
      else if r = 1 then d2NdX2.entry i 1 1
      else if r = 2 then d2NdX2.entry i 2 2
      else if r = 3 then d2NdX2.entry i 1 2 * 2
      else 0)

/-- Modelled from the spec: the Material capability (the Material base class and
LinIsotropic live outside this repository).  At a spatial point it provides a
plane-stress constitutive matrix -- the forward tensor, or the inverse tensor
when the flag is set -- possibly failing, and a mass density. -/
structure Material (α : Type) where
  evaluate : Vec3 α → Bool → Option (Mat α)
  massDensity : Vec3 α → α

/-- Modelled from the spec: a linear isotropic material with stiffness modulus E,
Poisson ratio nu and mass density rho; forward mode returns the plane-stress
constitutive matrix, inverse mode its exact inverse. -/
def LinIsotropic (E nu rho : α) : Material α :=
  { evaluate := fun _ invers =>
      some (if invers then
        ⟨3, 3, [[1 / E, -nu / E, 0], [-nu / E, 1 / E, 0],
                [0, 0, 2 * (1 + nu) / E]]⟩
      else
        Mat.smul (E / (1 - nu * nu))
          ⟨3, 3, [[1, nu, 0], [nu, 1, 0], [0, 0, (1 - nu) / 2]]⟩)
    massDensity := fun _ => rho }

/-- Models KirchhoffLovePlate::formCmatrix.  The material pointer is
dereferenced unconditionally by the code (there is no missing-material check),
so the bound material is a required argument here; the only failure is the
material evaluation itself failing.  Forward mode scales the material matrix by
thickness^3/12, inverse mode by its reciprocal. -/
def formCmatrix (material : Material α) (thickness : α) (X : Vec3 α)
    (invers : Bool) : Option (Mat α) :=
  match material.evaluate X invers with
  | none => none
  | some C =>
    let factor := thickness * thickness * thickness / 12
    some (Mat.smul (if invers then 1 / factor else factor) C)

/-- Models KirchhoffLovePlate::getPressure: self-weight density*gravity*thickness
plus the bound pressure field, if any.  The material pointer is dereferenced
unconditionally, so it is a required argument here. -/
def getPressure (material : Material α) (gravity thickness : α)
    (presFld : Option (Vec3 α → α)) (X : Vec3 α) : α :=
  material.massDensity X * gravity * thickness +
    (match presFld with
     | some f => f X
     | none => 0)

/-- Models KirchhoffLovePlate::haveLoads: true when a pressure field is bound,
else when gravity is nonzero, a material is bound and its mass density at the
origin (the default-constructed Vec3) is nonzero. -/
def haveLoads (material : Option (Material α)) (gravity : α)
    (presFld : Option (Vec3 α → α)) : Bool :=
  if presFld.isSome then true
  else if gravity ≠ 0 then
    match material with
    | some mat => decide (mat.massDensity Vec3.zero ≠ 0)
    | none => false
  else false

/-- Elementwise ES := ES + s*N, models utl::vector::add(N,s). -/
def vecAdd (ES N : List α) (s : α) : List α :=
  List.zipWith (fun e n => e + n * s) ES N

/-- Models KirchhoffLovePlate::formBodyForce: evaluates the total pressure; when
it is nonzero, adds pressure*detJW*N to the load vector and stores the
visualization sample (X,(0,0,p)) at index iP of the buffer provided the index
is within the buffer; when it is zero, changes nothing.  Returns the final
states of the load vector and of the sample buffer. -/
def formBodyForce (material : Material α) (gravity thickness : α)
    (presFld : Option (Vec3 α → α)) (ES : List α)
    (presVal : List (Vec3 α × Vec3 α)) (N : List α) (iP : Nat) (X : Vec3 α)
    (detJW : α) : List α × List (Vec3 α × Vec3 α) :=
  let p := getPressure material gravity thickness presFld X
  if p ≠ 0 then
    (vecAdd ES N (p * detJW),
     if iP < presVal.length then presVal.set iP (X, ⟨0, 0, p⟩) else presVal)
  else
    (ES, presVal)

/-- Modelled from the spec: congruence transformation of a symmetric 2x2 stress
resultant tensor, given by its component vector (xx, yy, xy), into the local
frame with rotation matrix T (the Tensor class is not part of this
repository). -/
def symTransform (T : Mat α) (m : List α) : List α :=
  match m with
  | [mxx, myy, mxy] =>
    let M : Mat α := ⟨2, 2, [[mxx, mxy], [mxy, myy]]⟩
    let R := (T.mul M).mul T.transpose
    [R.get 1 1, R.get 2 2, R.get 1 2]
  | _ => m

/-- Models the explicit-displacement-vector overload of
KirchhoffLovePlate::evalSol: validates the displacement vector, builds the
curvature operator B and the forward constitutive matrix C, computes
kappa = B*eV and m = C*(-kappa), and transforms m to the local frame when
requested and a local system is bound. -/
def evalSol (material : Material α) (thickness : α)
    (locSys : Option (Vec3 α → Mat α)) (nsd : Nat) (eV : List α)
    (d2NdX2 : Matrix3D α) (X : Vec3 α) (toLocal : Bool) : Option (List α) :=
  if eV.isEmpty then none
  else if eV.length ≠ d2NdX2.n1 then none
  else
    match formBmatrix nsd (Mat.zero 0 0) d2NdX2 with
    | (false, _) => none
    | (true, Bmat) =>
      match formCmatrix material thickness X false with
      | none => none
      | some Cmat =>
        match Bmat.mulVecOpt eV with
        | none => none
        | some kappa =>
          match Cmat.mulVecOpt (kappa.map fun a => -a) with
          | none => none
          | some m =>
            some (match locSys, toLocal with
                  | some T, true => symTransform (T X) m
                  | _, _ => m)

/-- Solution modes, modelled from the spec: the modes this kernel reacts to,
plus a catch-all for every other SIM::SolutionMode enumerator (the enum itself
is external to this repository). -/
inductive SolutionMode where
  | STATIC
  | VIBRATION
  | STIFF_ONLY
  | RHS_ONLY
  | RECOVERY
  | OTHER
deriving DecidableEq

/-- The state of a KirchhoffLovePlate instance that the claims depend on. -/
structure Plate (α : Type) where
  nsd : Nat
  gravity : α
  thickness : α
  material : Option (Material α)
  locSys : Option (Vec3 α → Mat α)
  presFld : Option (Vec3 α → α)
  mmode : SolutionMode
  eK : Nat
  eM : Nat
  eS : Nat
  primsolLen : Nat

/-- Models the KirchhoffLovePlate constructor: gravity 0, thickness 0.1, no
material, no local system, no pressure field, all matrix/vector indices 0. -/
def Plate.init (n : Nat) : Plate α :=
  { nsd := n, gravity := 0, thickness := 1 / 10, material := none,
    locSys := none, presFld := none, mmode := SolutionMode.OTHER,
    eK := 0, eM := 0, eS := 0, primsolLen := 0 }

/-- Modelled from the spec together with the printLog source: the statically
allocated default isotropic material that printLog falls back to (LinIsotropic
and its default parameters are external to this repository; only the fact that
some material gets bound matters to the claims). -/
def defaultMat : Material α := LinIsotropic 1000 (3 / 10) 1

/-- Models KirchhoffLovePlate::printLog: when no material is bound it binds the
static default material to the instance (a const_cast side effect) before
printing; otherwise it leaves the state unchanged. -/
def printLog (p : Plate α) : Plate α :=
  match p.material with
  | none => { p with material := some defaultMat }
  | some _ => p

/-- Models KirchhoffLovePlate::setMode: records the mode, zeroes all
matrix/vector indices, resizes the primary-solution store to one vector for
RECOVERY (clearing it otherwise), then sets the indices the mode needs. -/
def setMode (p : Plate α) (mode : SolutionMode) : Plate α :=
  let p := { p with mmode := mode, eM := 0, eK := 0, eS := 0,
                    primsolLen := if mode = SolutionMode.RECOVERY then 1 else 0 }
  match mode with
  | SolutionMode.STATIC => { p with eK := 1, eS := 1 }
  | SolutionMode.VIBRATION => { p with eK := 1, eM := 2 }
  | SolutionMode.STIFF_ONLY => { p with eK := 1 }
  | SolutionMode.RHS_ONLY => { p with eS := 1 }
  | _ => p

/-- Modelled from the spec: the ElmMats element-state container (external to
this repository).  Default construction gives no matrices, no vectors, and the
flags rhsOnly=false, withLHS=true; resize sets the numbers of matrix and vector
slots; redim records the dimension they are all sized to. -/
structure ElmMats where
  rhsOnly : Bool
  withLHS : Bool
  nA : Nat
  nB : Nat
  dim : Nat
deriving DecidableEq

/-- Models the default ElmMats constructor. -/
def ElmMats.init : ElmMats := ⟨false, true, 0, 0, 0⟩

/-- Models ElmMats::resize(nA,nB). -/
def ElmMats.resize (e : ElmMats) (na nb : Nat) : ElmMats :=
  { e with nA := na, nB := nb }

/-- Models ElmMats::redim(nen). -/
def ElmMats.redim (e : ElmMats) (n : Nat) : ElmMats := { e with dim := n }

/-- Models KirchhoffLovePlate::getLocalIntegral, including the fallthrough of
the RHS_ONLY case into the RECOVERY case of the switch (the RHS_ONLY branch has
no break statement). -/
def getLocalIntegral (mode : SolutionMode) (nen : Nat) (neumann : Bool) :
    ElmMats :=
  let r := ElmMats.init
  let r :=
    match mode with
    | SolutionMode.STATIC =>
      ({ r with rhsOnly := neumann,
                withLHS := !neumann }).resize (if neumann then 0 else 1) 1
    | SolutionMode.VIBRATION => r.resize 2 0
    | SolutionMode.STIFF_ONLY => r.resize 1 0
    | SolutionMode.RHS_ONLY =>
      { r.resize (if neumann then 0 else 1) 1 with
          rhsOnly := true, withLHS := false }
    | SolutionMode.RECOVERY => { r with rhsOnly := true, withLHS := false }
    | _ => r
  r.redim nen

/-- The per-element norm accumulator, models ElmNorm: the ordered scalar slots,
the primary solution vectors (front = element displacements), and the
externally supplied projected stress fields. -/
structure ElmNorm (α : Type) where
  values : List α
  vec : List (List α)
  psol : List (List α)

/-- Additive slot update pnorm[i] += v (an out-of-range index is left alone,
mirroring that the C++ buffer is assumed large enough). -/
def bump (l : List α) (i : Nat) (v : α) : List α := l.set i (l.getD i 0 + v)

/-- Elementwise vector difference, models Vector subtraction. -/
def vsub (u v : List α) : List α := List.zipWith (fun a b => a - b) u v

/-- Strided dot product, models utl::vector::dot(N,off,stride):
sum over k of N[k] * v[off + k*stride]. -/
def dotStride (v N : List α) (off stride : Nat) : α :=
  ((List.range N.length).map fun k =>
    N.getD k 0 * v.getD (off + k * stride) 0).sum

/-- Models the projected-solution loop of KirchhoffLovePlateNorm::evalInt: for
each nonempty projected field, evaluate the projected stress resultant mr, then
accumulate the four recovery slots (energy norm, energy error, L2 norm, L2
error), and, when an analytical solution is present, a fifth slot for the
projection error followed by one skipped slot reserved for the effectivity
index.  Empty projected fields consume no slots.  Returns the final slot list
and slot cursor. -/
def normBlocks (nrcmp : Nat) (Cinv : Mat α) (mh : List α)
    (mOpt : Option (List α)) (N : List α) (detJxW : α) :
    List (List α) → List α → Nat → List α × Nat
  | [], vals, ip => (vals, ip)
  | q :: qs, vals, ip =>
    if q.isEmpty then normBlocks nrcmp Cinv mh mOpt N detJxW qs vals ip
    else
      let mr := (List.range nrcmp).map fun j => dotStride q N j nrcmp
      let err := vsub mr mh
      let vals := bump vals ip (dotv mr (Cinv.mulVec mr) * detJxW)
      let vals := bump vals (ip + 1) (dotv err (Cinv.mulVec err) * detJxW)
      let vals := bump vals (ip + 2) (dotv mr mr * detJxW)
      let vals := bump vals (ip + 3) (dotv err err * detJxW)
      match mOpt with
      | some m =>
        let e2 := vsub m mr
        normBlocks nrcmp Cinv mh mOpt N detJxW qs
          (bump vals (ip + 4) (dotv e2 (Cinv.mulVec e2) * detJxW)) (ip + 6)
      | none => normBlocks nrcmp Cinv mh mOpt N detJxW qs vals (ip + 4)

/-- Models KirchhoffLovePlateNorm::evalInt: fails when the inverse constitutive
matrix or the finite element stress cannot be formed; otherwise accumulates the
energy norm of the computed solution in slot 0, the external energy in slot 1
(only when loads are present, but the slot is always reserved), the analytical
energy norm and true error in slots 2 and 3 when an analytical solution is
bound, then the projected-field blocks.  The element displacement vector is the
front of the accumulator's solution vectors. -/
def normEvalInt (material : Material α) (thickness gravity : α)
    (presFld : Option (Vec3 α → α)) (locSys : Option (Vec3 α → Mat α))
    (nsd : Nat) (anasol : Option (Vec3 α → List α)) (N : List α)
    (d2NdX2 : Matrix3D α) (detJxW : α) (X : Vec3 α) (pnorm : ElmNorm α) :
    Option (ElmNorm α) :=
  match formCmatrix material thickness X true with
  | none => none
  | some Cinv =>
    match evalSol material thickness locSys nsd (pnorm.vec.headD []) d2NdX2 X
        false with
    | none => none
    | some mh =>
      let nrcmp := nsd * (nsd + 1) / 2
      let vals := bump pnorm.values 0 (dotv mh (Cinv.mulVec mh) * detJxW)
      let vals :=
        if haveLoads (some material) gravity presFld then
          bump vals 1 (getPressure material gravity thickness presFld X *
            dotv (pnorm.vec.headD []) N * detJxW)
        else vals
      let mOpt := anasol.map fun f => f X
      let vals :=
        match mOpt with
        | some m =>
          bump (bump vals 2 (dotv m (Cinv.mulVec m) * detJxW)) 3
            (dotv (vsub m mh) (Cinv.mulVec (vsub m mh)) * detJxW)
        | none => vals
      let start : Nat := match mOpt with | some _ => 4 | none => 2
      some { pnorm with
               values := (normBlocks nrcmp Cinv mh mOpt N detJxW pnorm.psol
                 vals start).1 }

/-- One effectivity-index assignment of the finalizeElement loop:
pnorm[ip] = sqrt(pnorm[ip-4] / pnorm[3]). -/
noncomputable def finApply (l : List ℝ) (ip : Nat) : List ℝ :=
  l.set ip (Real.sqrt (l.getD (ip - 4) 0 / l.getD 3 0))

/-- The loop of KirchhoffLovePlateNorm::finalizeElement: for ip = 9, 15, 21,
... below the slot count, assign the effectivity index in place. -/
noncomputable def finalizeFrom (ip : Nat) (l : List ℝ) : List ℝ :=
  if h : ip < l.length then finalizeFrom (ip + 6) (finApply l ip) else l
termination_by l.length - ip
decreasing_by simp [finApply, List.length_set]; omega

/-- Models KirchhoffLovePlateNorm::finalizeElement: without an analytical
solution it changes nothing; with one it runs the effectivity-index loop
starting at slot 9 with stride 6. -/
noncomputable def finalizeElement (hasAnasol : Bool) (l : List ℝ) : List ℝ :=
  if hasAnasol then finalizeFrom 9 l else l

/-- Value of the 1D quadratic Lagrange basis function for node a (nodes at
x = 0, 1/2, 1) evaluated at x = 1/2. -/
def quadL (a : Nat) : ℚ := if a = 2 then 1 else 0

/-- First derivative of the 1D quadratic Lagrange basis at x = 1/2. -/
def quadDL (a : Nat) : ℚ :=
  if a = 1 then -1 else if a = 3 then 1 else 0

/-- Second derivative of the 1D quadratic Lagrange basis (constant in x). -/
def quadDDL (a : Nat) : ℚ :=
  if a = 1 then 4 else if a = 2 then -8 else if a = 3 then 4 else 0

/-- Second-derivative array of the 9-node biquadratic element on the unit
square, evaluated at the point (1/2,1/2); node i corresponds to the tensor
index pair (a,b) with a = (i-1)%3+1, b = (i-1)/3+1 and coordinates
((a-1)/2,(b-1)/2). -/
def d2Quad : Matrix3D ℚ :=
  ⟨9, 2, 2, fun i d e =>
    let a := (i - 1) % 3 + 1
    let b := (i - 1) / 3 + 1
    if d = 1 ∧ e = 1 then quadDDL a * quadL b
    else if d = 2 ∧ e = 2 then quadL a * quadDDL b
    else quadDL a * quadDL b⟩

/-- Nodal values of the deflection field w = x^2 at the 9 biquadratic nodes. -/
def eVQuad : List ℚ :=
  (List.range 9).map fun i =>
    (((i % 3 : Nat) : ℚ) / 2) * (((i % 3 : Nat) : ℚ) / 2)

theorem getD_of_le {β : Type} (l : List β) (n : Nat) (d : β)
    (h : l.length ≤ n) : l.getD n d = d := by
  simp [List.getD_eq_getElem?_getD, List.getElem?_eq_none h]

theorem getD_set_ne {β : Type} (l : List β) (i j : Nat) (a d : β)
    (h : i ≠ j) : (l.set i a).getD j d = l.getD j d := by
  simp [List.getD_eq_getElem?_getD, List.getElem?_set_ne h]

theorem getD_set_self {β : Type} (l : List β) (i : Nat) (a d : β)
    (h : i < l.length) : (l.set i a).getD i d = a := by
  simp [List.getD_eq_getElem?_getD, List.getElem?_set_eq_of_lt a h]

theorem Mat.rows_ofFn (r c : Nat) (f : Nat → Nat → α) :
    (Mat.ofFn r c f).rows = r := rfl

theorem Mat.cols_ofFn (r c : Nat) (f : Nat → Nat → α) :
    (Mat.ofFn r c f).cols = c := rfl

theorem getD_map_range {β : Type} (r k : Nat) (g : Nat → β) (d : β)
    (h : k < r) : ((List.range r).map g).getD k d = g k := by
  rw [List.getD_eq_getElem _ _ (by simpa using h), List.getElem_map,
    List.getElem_range]

theorem Mat.get_ofFn (r c : Nat) (f : Nat → Nat → α) (i j : Nat)
    (hi1 : 1 ≤ i) (hir : i ≤ r) (hj1 : 1 ≤ j) (hjc : j ≤ c) :
    (Mat.ofFn r c f).get i j = f i j := by
  unfold Mat.get Mat.ofFn
  rw [getD_map_range _ _ _ _ (by omega), getD_map_range _ _ _ _ (by omega)]
  have e1 : i - 1 + 1 = i := by omega
  have e2 : j - 1 + 1 = j := by omega
  rw [e1, e2]

theorem Mat.get_smul (c : α) (A : Mat α) (i j : Nat) :
    (Mat.smul c A).get i j = c * A.get i j := by
  unfold Mat.get Mat.smul
  by_cases h : i - 1 < A.data.length
  · have h' : i - 1 <
        (A.data.map fun row => row.map fun a => c * a).length := by simpa using h
    rw [List.getD_eq_getElem _ _ h', List.getElem_map,
      List.getD_eq_getElem _ _ h]
    by_cases h2 : j - 1 < (A.data[i - 1]).length
    · have h2' : j - 1 <
          ((A.data[i - 1]).map fun a => c * a).length := by simpa using h2
      rw [List.getD_eq_getElem _ _ h2', List.getElem_map,
        List.getD_eq_getElem _ _ h2]
    · rw [getD_of_le _ _ _ (by simpa using Nat.le_of_not_lt h2),
        getD_of_le _ _ _ (Nat.le_of_not_lt h2), mul_zero]
  · have e1 : (A.data.map fun row => row.map fun a => c * a).getD (i - 1) [] =
        ([] : List α) := getD_of_le _ _ _ (by simpa using Nat.le_of_not_lt h)
    have e2 : A.data.getD (i - 1) [] = ([] : List α) :=
      getD_of_le _ _ _ (Nat.le_of_not_lt h)
    rw [e1, e2]
    simp

theorem Mat.smul_ofFn (c : α) (r k : Nat) (f : Nat → Nat → α) :
    Mat.smul c (Mat.ofFn r k f) = Mat.ofFn r k fun i j => c * f i j := by
  simp [Mat.smul, Mat.ofFn, List.map_map, Function.comp]

theorem Mat.smul_one (A : Mat α) : Mat.smul (1 : α) A = A := by
  unfold Mat.smul
  cases A with
  | mk r c data => simp

theorem Mat.mul_smul_smul (a b : α) (A B : Mat α) :
    (Mat.smul a A).mul (Mat.smul b B) = Mat.smul (a * b) (A.mul B) := by
  unfold Mat.mul
  rw [Mat.smul_ofFn]
  show Mat.ofFn A.rows B.cols _ = Mat.ofFn A.rows B.cols _
  unfold Mat.ofFn
  congr 1
  apply List.map_congr_left
  intro i _
  dsimp only
  apply List.map_congr_left
  intro j _
  dsimp only
  simp only [Mat.get_smul]
  rw [← List.sum_map_mul_left]
  apply congrArg
  apply List.map_congr_left
  intro k _
  dsimp only
  ring

theorem dotv_map_neg (u v : List α) :
    dotv u (v.map fun a => -a) = -(dotv u v) := by
  induction u generalizing v with
  | nil => simp [dotv]
  | cons a u ih =>
    cases v with
    | nil => simp [dotv]
    | cons b v =>
      simp only [dotv, List.map_cons, List.zipWith_cons_cons, List.sum_cons]
      have := ih v
      simp only [dotv] at this
      rw [this]
      ring

theorem Mat.mulVec_map_neg (A : Mat α) (v : List α) :
    A.mulVec (v.map fun a => -a) = (A.mulVec v).map fun a => -a := by
  unfold Mat.mulVec
  rw [List.map_map]
  apply List.map_congr_left
  intro i _
  simp [Function.comp, dotv_map_neg]

theorem Mat.length_mulVec (A : Mat α) (v : List α) :
    (A.mulVec v).length = A.rows := by
  simp [Mat.mulVec]

theorem bump_getD_ne (l : List α) (i j : Nat) (v : α) (h : j ≠ i) :
    (bump l j v).getD i 0 = l.getD i 0 := by
  unfold bump
  exact getD_set_ne _ _ _ _ _ h

theorem finalizeFrom_getD_aux (fuel : Nat) :
    ∀ (l : List ℝ) (ip i : Nat), l.length ≤ ip + fuel → 9 ≤ ip →
    ip % 6 = 3 →
    (finalizeFrom ip l).getD i 0 =
      if ip ≤ i ∧ i % 6 = 3 ∧ i < l.length then
        Real.sqrt (l.getD (i - 4) 0 / l.getD 3 0)
      else l.getD i 0 := by
  induction fuel with
  | zero =>
    intro l ip i hle h9 hm
    rw [finalizeFrom, dif_neg (by omega)]
    rw [if_neg (by rintro ⟨h1, h2, h3⟩; omega)]
  | succ n ih =>
    intro l ip i hle h9 hm
    rw [finalizeFrom]
    by_cases h : ip < l.length
    · rw [dif_pos h]
      have hlen : (finApply l ip).length = l.length := by
        simp [finApply, List.length_set]
      rw [ih (finApply l ip) (ip + 6) i (by omega) (by omega) (by omega)]
      by_cases hi : i = ip
      · subst hi
        rw [if_neg (by rintro ⟨h1, h2, h3⟩; omega)]
        rw [if_pos ⟨Nat.le_refl i, hm, h⟩]
        unfold finApply
        exact getD_set_self _ _ _ _ h
      · have hset4 : ∀ j, j ≠ ip → (finApply l ip).getD j 0 = l.getD j 0 := by
          intro j hj
          unfold finApply
          exact getD_set_ne _ _ _ _ _ (fun e => hj e.symm)
        by_cases hc : ip + 6 ≤ i ∧ i % 6 = 3 ∧ i < (finApply l ip).length
        · rw [if_pos hc]
          rw [if_pos (by rw [hlen] at hc; exact ⟨by omega, hc.2.1, hc.2.2⟩)]
          rw [hset4 (i - 4) (by omega), hset4 3 (by omega)]
        · rw [if_neg hc]
          rw [hset4 i hi]
          rw [if_neg (by
            rintro ⟨h1, h2, h3⟩
            exact hc ⟨by omega, h2, by rw [hlen]; exact h3⟩)]
    · rw [dif_neg h]
      rw [if_neg (by rintro ⟨h1, h2, h3⟩; omega)]

theorem finalizeFrom_getD (l : List ℝ) (i : Nat) :
    (finalizeFrom 9 l).getD i 0 =
      if 9 ≤ i ∧ i % 6 = 3 ∧ i < l.length then
        Real.sqrt (l.getD (i - 4) 0 / l.getD 3 0)
      else l.getD i 0 :=
  finalizeFrom_getD_aux l.length l 9 i (by omega) (by omega) (by omega)

theorem normBlocks_getD (nrcmp : Nat) (Cinv : Mat α) (mh m : List α)
    (N : List α) (w : α) :
    ∀ (qs : List (List α)) (vals : List α) (ip i : Nat), ip % 6 = 4 →
    i % 6 = 3 →
    ((normBlocks nrcmp Cinv mh (some m) N w qs vals ip).1).getD i 0 =
      vals.getD i 0 := by
  intro qs
  induction qs with
  | nil =>
    intro vals ip i hip hi
    rfl
  | cons q qs ih =>
    intro vals ip i hip hi
    rw [normBlocks]
    by_cases hq : q.isEmpty
    · rw [if_pos hq]
      exact ih vals ip i hip hi
    · rw [if_neg hq]
      dsimp only
      rw [ih _ (ip + 6) i (by omega) hi]
      rw [bump_getD_ne _ _ _ _ (by omega), bump_getD_ne _ _ _ _ (by omega),
        bump_getD_ne _ _ _ _ (by omega), bump_getD_ne _ _ _ _ (by omega),
        bump_getD_ne _ _ _ _ (by omega)]

theorem symTransform_length (T : Mat α) (m : List α) :
    (symTransform T m).length = m.length := by
  rcases m with _ | ⟨a, _ | ⟨b, _ | ⟨c, _ | ⟨d, r⟩⟩⟩⟩ <;> rfl

/-- C10: the curvature-operator builder resizes its output to nstrc x n with
zero fill before validating the derivative-index dimensions, so on a dimension
mismatch it fails leaving the zero-filled nstrc x n matrix in the output
argument, regardless of the argument's previous contents (the failure is not
atomic with respect to the output). -/
theorem claim_C10 (nsd : Nat) (prev : Mat ℚ) (d2 : Matrix3D ℚ)
    (h : d2.n2 ≠ nsd ∨ d2.n3 ≠ nsd) :
    formBmatrix nsd prev d2 =
      (false, Mat.zero (nsd * (nsd + 1) / 2) d2.n1) := by
  simp only [formBmatrix]
  rw [if_pos h]

/-- Witness for C10 at a concrete input: a 2x1x2 second-derivative array with
nsd = 2 makes formBmatrix fail and overwrite a previously nonzero 1x1 output
matrix with the zero 3x2 matrix. -/
theorem claim_C10_witness :
    ((⟨2, 1, 2, fun _ _ _ => 5⟩ : Matrix3D ℚ).n2 ≠ 2 ∨
      (⟨2, 1, 2, fun _ _ _ => 5⟩ : Matrix3D ℚ).n3 ≠ 2) ∧
    formBmatrix 2 (⟨1, 1, [[7]]⟩ : Mat ℚ) ⟨2, 1, 2, fun _ _ _ => 5⟩ =
      (false, Mat.zero 3 2) :=
  ⟨Or.inl (by decide), claim_C10 2 ⟨1, 1, [[7]]⟩ _ (Or.inl (by decide))⟩

/-- C9: for every node count and both variants of the Neumann flag, the local
element state created under RHS_ONLY carries rhsOnly = true and
withLHS = false, the same marking as under RECOVERY, because the RHS_ONLY
switch case falls through into the RECOVERY case. -/
theorem claim_C9 (nen : Nat) (neumann : Bool) :
    (getLocalIntegral SolutionMode.RHS_ONLY nen neumann).rhsOnly = true ∧
    (getLocalIntegral SolutionMode.RHS_ONLY nen neumann).withLHS = false ∧
    (getLocalIntegral SolutionMode.RECOVERY nen neumann).rhsOnly = true ∧
    (getLocalIntegral SolutionMode.RECOVERY nen neumann).withLHS = false := by
  cases neumann <;>
    simp [getLocalIntegral, ElmMats.init, ElmMats.resize, ElmMats.redim]

/-- Counterexample to C4 as stated: under RHS_ONLY with a non-pure-load
(non-Neumann) request the code allocates one stiffness matrix slot, not zero;
the claim's parenthetical has the dependence on the pure-load flag backwards
(the code allocates 0 matrices for a pure-load request and 1 otherwise). -/
theorem claim_C4_counterexample :
    (getLocalIntegral SolutionMode.RHS_ONLY 2 false).nA ≠ 0 := by decide

/-- C4 as amended: STATIC with a pure-load request allocates 0 matrices and 1
load vector; VIBRATION allocates 2 matrices and 0 load vectors; RHS_ONLY
allocates 1 matrix (0 for a pure-load request) and 1 load vector; RECOVERY
allocates no matrices or vectors and the mode setter resizes the
primary-solution store to exactly one vector. -/
theorem claim_C4 (nen : Nat) (neumann : Bool) (s : Plate ℚ) :
    (getLocalIntegral SolutionMode.STATIC nen true).nA = 0 ∧
    (getLocalIntegral SolutionMode.STATIC nen true).nB = 1 ∧
    (getLocalIntegral SolutionMode.VIBRATION nen neumann).nA = 2 ∧
    (getLocalIntegral SolutionMode.VIBRATION nen neumann).nB = 0 ∧
    (getLocalIntegral SolutionMode.RHS_ONLY nen neumann).nA =
      (if neumann then 0 else 1) ∧
    (getLocalIntegral SolutionMode.RHS_ONLY nen neumann).nB = 1 ∧
    (getLocalIntegral SolutionMode.RECOVERY nen neumann).nA = 0 ∧
    (getLocalIntegral SolutionMode.RECOVERY nen neumann).nB = 0 ∧
    (setMode s SolutionMode.RECOVERY).primsolLen = 1 := by
  cases neumann <;>
    simp [getLocalIntegral, setMode, ElmMats.init, ElmMats.resize,
      ElmMats.redim]

/-- Counterexample to C5 as stated: the log-printing operation, invoked on a
kernel with no material bound, silently binds a default material in place of
the unset one (the claim asserts no operation does so). -/
theorem claim_C5_counterexample :
    (Plate.init 2 : Plate ℚ).material = none ∧
    ((printLog (Plate.init 2 : Plate ℚ)).material).isSome = true :=
  ⟨rfl, rfl⟩

/-- C5 as amended: no numeric operation checks for a missing material (the
constitutive evaluation takes the bound material unconditionally, and its only
failure is the material's own evaluation failing -- there is no MissingData
path), and printLog, when no material is bound, silently binds the static
default material, which subsequent operations then use. -/
theorem claim_C5 (p : Plate ℚ) (mat : Material ℚ) (t : ℚ) (X : Vec3 ℚ)
    (inv : Bool) :
    (p.material = none → (printLog p).material = some defaultMat) ∧
    (∀ m, p.material = some m → printLog p = p) ∧
    (formCmatrix mat t X inv = none ↔ mat.evaluate X inv = none) := by
  refine ⟨?_, ?_, ?_⟩
  · intro h
    unfold printLog
    rw [h]
  · intro m h
    unfold printLog
    rw [h]
  · cases h : mat.evaluate X inv <;> simp [formCmatrix, h]

/-- Witness for C5 at a concrete input: printLog on a freshly constructed
kernel (with gravity reset to 1 to distinguish it from the counterexample
input) binds the default material. -/
theorem claim_C5_witness :
    (printLog ({ Plate.init 2 with gravity := 1 } : Plate ℚ)).material =
      some defaultMat :=
  (claim_C5 { Plate.init 2 with gravity := 1 } defaultMat 1 Vec3.zero
    false).1 rfl

/-- Counterexample to C7 as stated: with a pressure field bound that is
identically zero and zero gravity, the loads query returns true, although no
nonzero pressure field is bound and the gravity disjunct fails; the claimed
equivalence is false at this state. -/
theorem claim_C7_counterexample :
    ¬ (haveLoads (none : Option (Material ℚ)) 0 (some fun _ => 0) = true ↔
        ((∃ X : Vec3 ℚ, (fun _ : Vec3 ℚ => (0 : ℚ)) X ≠ 0) ∨
         ((0 : ℚ) ≠ 0 ∧ ∃ mat : Material ℚ,
            (none : Option (Material ℚ)) = some mat ∧
            mat.massDensity Vec3.zero ≠ 0))) := by
  intro h
  have hl : haveLoads (none : Option (Material ℚ)) 0 (some fun _ => 0)
      = true := rfl
  rcases h.mp hl with ⟨X, hX⟩ | ⟨hg, _⟩
  · exact hX rfl
  · exact hg rfl

/-- C7 as amended: the loads query returns true if and only if a pressure
field is bound (regardless of its values), or gravity is nonzero and a
material is bound whose mass density at the reference point (the origin) is
nonzero; in every other state it returns false. -/
theorem claim_C7 (material : Option (Material ℚ)) (gravity : ℚ)
    (presFld : Option (Vec3 ℚ → ℚ)) :
    haveLoads material gravity presFld = true ↔
      presFld.isSome = true ∨
      (gravity ≠ 0 ∧ ∃ mat, material = some mat ∧
        mat.massDensity Vec3.zero ≠ 0) := by
  unfold haveLoads
  cases presFld with
  | some f => simp
  | none =>
    simp only [Option.isSome_none, Bool.false_eq_true, if_false, false_or]
    by_cases hg : gravity ≠ 0
    · rw [if_pos hg]
      cases material with
      | none => simp [hg]
      | some mat => simp [hg, decide_eq_true_iff]
    · rw [if_neg hg]
      push_neg at hg
      simp [hg]

/-- C8: at a quadrature point whose total pressure evaluates to zero, the
per-point load accumulation leaves the element load vector and the
visualization sample buffer unchanged; at a nonzero pressure it adds
weight-scaled pressure times the basis values to the load vector and records
the sample (point, (0,0,pressure)) at the current quadrature-point index
(assumed to lie within the sample buffer, as initIntegration sizes it to the
number of quadrature points). -/
theorem claim_C8 (material : Material ℚ) (gravity thickness : ℚ)
    (presFld : Option (Vec3 ℚ → ℚ)) (ES : List ℚ)
    (presVal : List (Vec3 ℚ × Vec3 ℚ)) (N : List ℚ) (iP : Nat) (X : Vec3 ℚ)
    (detJW : ℚ) (hiP : iP < presVal.length) :
    (getPressure material gravity thickness presFld X = 0 →
      formBodyForce material gravity thickness presFld ES presVal N iP X detJW
        = (ES, presVal)) ∧
    (getPressure material gravity thickness presFld X ≠ 0 →
      formBodyForce material gravity thickness presFld ES presVal N iP X detJW
        = (vecAdd ES N
            (getPressure material gravity thickness presFld X * detJW),
           presVal.set iP
             (X, ⟨0, 0, getPressure material gravity thickness presFld X⟩))) := by
  constructor
  · intro h
    simp only [formBodyForce]
    rw [if_neg (by simp [h])]
  · intro h
    simp only [formBodyForce]
    rw [if_pos h, if_pos hiP]

/-- Witness for C8 at a concrete input: density 2, gravity 1, thickness 1/10
and no pressure field give the nonzero total pressure 1/5, which is added to
the load vector and recorded in the sample buffer at index 0. -/
theorem claim_C8_witness :
    formBodyForce (LinIsotropic (1000 : ℚ) (3 / 10) 2) 1 (1 / 10) none [1, 1]
        [(Vec3.zero, Vec3.zero)] [1 / 2, 1 / 2] 0 Vec3.zero 1 =
      (vecAdd [1, 1] [1 / 2, 1 / 2]
        (getPressure (LinIsotropic (1000 : ℚ) (3 / 10) 2) 1 (1 / 10) none
          Vec3.zero * 1),
       [(Vec3.zero, Vec3.zero)].set 0
         (Vec3.zero,
          ⟨0, 0, getPressure (LinIsotropic (1000 : ℚ) (3 / 10) 2) 1 (1 / 10)
            none Vec3.zero⟩)) :=
  (claim_C8 (LinIsotropic (1000 : ℚ) (3 / 10) 2) 1 (1 / 10) none [1, 1]
    [(Vec3.zero, Vec3.zero)] [1 / 2, 1 / 2] 0 Vec3.zero 1 (by decide)).2
    (by norm_num [getPressure, LinIsotropic])

/-- C2: for every material whose forward and inverse constitutive evaluations
at a point succeed and are mutual inverses (the contract of the externally
owned material capability), and every thickness t > 0, the matrix returned by
the kernel's constitutive evaluation in forward mode (material matrix scaled
by t^3/12) and the matrix returned in inverse mode (divided by t^3/12) are
inverses of each other: their product is the identity. -/
theorem claim_C2 (material : Material ℚ) (t : ℚ) (X : Vec3 ℚ) (C Ci : Mat ℚ)
    (n : Nat) (hf : material.evaluate X false = some C)
    (hi : material.evaluate X true = some Ci)
    (hinv : C.mul Ci = Mat.identity n) (ht : 0 < t) :
    ∃ F Fi, formCmatrix material t X false = some F ∧
      formCmatrix material t X true = some Fi ∧
      F.mul Fi = Mat.identity n := by
  refine ⟨Mat.smul (t * t * t / 12) C, Mat.smul (1 / (t * t * t / 12)) Ci,
    ?_, ?_, ?_⟩
  · simp [formCmatrix, hf]
  · simp [formCmatrix, hi]
  · rw [Mat.mul_smul_smul]
    have hfac : t * t * t / 12 * (1 / (t * t * t / 12)) = 1 := by
      have : t * t * t / 12 ≠ 0 := by positivity
      field_simp
    rw [hfac, Mat.smul_one, hinv]

/-- Witness for C2 at a concrete input: the isotropic material with E = 1000,
nu = 3/10 and thickness 1/10; its forward and inverse plane-stress matrices
are mutual inverses, hence so are the thickness-scaled kernel matrices. -/
theorem claim_C2_witness :
    ∃ F Fi,
      formCmatrix (LinIsotropic (1000 : ℚ) (3 / 10) 1) (1 / 10) Vec3.zero
        false = some F ∧
      formCmatrix (LinIsotropic (1000 : ℚ) (3 / 10) 1) (1 / 10) Vec3.zero
        true = some Fi ∧
      F.mul Fi = Mat.identity 3 :=
  claim_C2 (LinIsotropic (1000 : ℚ) (3 / 10) 1) (1 / 10) Vec3.zero
    (Mat.smul ((1000 : ℚ) / (1 - 3 / 10 * (3 / 10)))
      ⟨3, 3, [[1, 3 / 10, 0], [3 / 10, 1, 0], [0, 0, (1 - 3 / 10) / 2]]⟩)
    ⟨3, 3, [[1 / 1000, -(3 / 10) / 1000, 0], [-(3 / 10) / 1000, 1 / 1000, 0],
            [0, 0, 2 * (1 + 3 / 10) / 1000]]⟩
    3 rfl rfl
    (by norm_num [Mat.mul, Mat.smul, Mat.ofFn, Mat.get, Mat.identity,
      List.range_succ])
    (by norm_num)

/-- C3: for every second-derivative array whose derivative-index dimensions
equal the spatial dimension, the curvature operator succeeds, and its rows are,
for dimension 2, row 1 = d2N/dx2, row 2 = d2N/dy2, row 3 = 2*d2N/dxdy per node
column, and for dimension 1 the single row d2N/dx2; applied to the nodal
displacements of the field w = x^2 on the one-element biquadratic unit square
it yields the curvature components (2, 0, 0). -/
theorem claim_C3 :
    (∀ (prev : Mat ℚ) (d2 : Matrix3D ℚ), d2.n2 = 2 → d2.n3 = 2 →
      (formBmatrix 2 prev d2).1 = true ∧
      ∀ i, 1 ≤ i → i ≤ d2.n1 →
        (formBmatrix 2 prev d2).2.get 1 i = d2.entry i 1 1 ∧
        (formBmatrix 2 prev d2).2.get 2 i = d2.entry i 2 2 ∧
        (formBmatrix 2 prev d2).2.get 3 i = d2.entry i 1 2 * 2) ∧
    (∀ (prev : Mat ℚ) (d2 : Matrix3D ℚ), d2.n2 = 1 → d2.n3 = 1 →
      (formBmatrix 1 prev d2).1 = true ∧
      ∀ i, 1 ≤ i → i ≤ d2.n1 →
        (formBmatrix 1 prev d2).2.get 1 i = d2.entry i 1 1) ∧
    (formBmatrix 2 (Mat.zero 0 0) d2Quad).2.mulVec eVQuad = [2, 0, 0] := by
  refine ⟨?_, ?_, ?_⟩
  · intro prev d2 h2 h3
    have hred : formBmatrix 2 prev d2 = (true, Mat.ofFn 3 d2.n1 fun r i =>
        if (2 : Nat) = 1 then (if r = 1 then d2.entry i 1 1 else 0)
        else if r = 1 then d2.entry i 1 1
        else if r = 2 then d2.entry i 2 2
        else if r = 3 then d2.entry i 1 2 * 2
        else 0) := by
      simp only [formBmatrix]
      rw [if_neg (by simp [h2, h3])]
    rw [hred]
    refine ⟨rfl, fun i h1 hn => ⟨?_, ?_, ?_⟩⟩ <;>
      rw [Mat.get_ofFn _ _ _ _ _ (by norm_num) (by norm_num) h1 hn] <;>
      norm_num
  · intro prev d2 h2 h3
    have hred : formBmatrix 1 prev d2 = (true, Mat.ofFn 1 d2.n1 fun r i =>
        if (1 : Nat) = 1 then (if r = 1 then d2.entry i 1 1 else 0)
        else if r = 1 then d2.entry i 1 1
        else if r = 2 then d2.entry i 2 2
        else if r = 3 then d2.entry i 1 2 * 2
        else 0) := by
      simp only [formBmatrix]
      rw [if_neg (by simp [h2, h3])]
    rw [hred]
    refine ⟨rfl, fun i h1 hn => ?_⟩
    rw [Mat.get_ofFn _ _ _ _ _ (by norm_num) (by norm_num) h1 hn]
    norm_num
  · norm_num [formBmatrix, Mat.mulVec, Mat.ofFn, Mat.zero, dotv, d2Quad,
      eVQuad, quadL, quadDL, quadDDL, List.range_succ]

/-- Witness for C3 at a concrete input: on the biquadratic element array the
operator builder succeeds and its third-row first-column entry doubles the
mixed second derivative of the first basis function. -/
theorem claim_C3_witness :
    (formBmatrix 2 (Mat.zero 0 0) d2Quad).1 = true ∧
    (formBmatrix 2 (Mat.zero 0 0) d2Quad).2.get 3 1 =
      d2Quad.entry 1 1 2 * 2 := by
  have h := claim_C3.1 (Mat.zero 0 0) d2Quad rfl rfl
  exact ⟨h.1, (h.2 1 (by norm_num) (by norm_num [d2Quad])).2.2⟩

/-- C1: stress recovery from an explicit displacement vector computes the
stress resultant m = -C*(B*eV), with B the curvature operator built from the
second-derivative array and C the thickness^3/12-scaled forward constitutive
matrix at the point; when a local coordinate system is bound and the toLocal
flag is set, m is congruence-transformed into the local frame at the
evaluation point; the result is the ordered vector of nstrc = 3 components
(spatial dimension 2). -/
theorem claim_C1 (material : Material ℚ) (thickness : ℚ)
    (locSys : Option (Vec3 ℚ → Mat ℚ)) (eV : List ℚ) (d2 : Matrix3D ℚ)
    (X : Vec3 ℚ) (toLocal : Bool) (C0 : Mat ℚ) (hne : eV ≠ [])
    (hlen : eV.length = d2.n1) (h2 : d2.n2 = 2) (h3 : d2.n3 = 2)
    (hmat : material.evaluate X false = some C0) (hrows : C0.rows = 3)
    (hcols : C0.cols = 3) :
    ∃ s, evalSol material thickness locSys 2 eV d2 X toLocal = some s ∧
      s.length = 3 ∧
      s = (match locSys, toLocal with
           | some T, true => symTransform (T X)
               (((Mat.smul (thickness * thickness * thickness / 12) C0).mulVec
                 ((formBmatrix 2 (Mat.zero 0 0) d2).2.mulVec eV)).map
                   fun a => -a)
           | _, _ =>
               ((Mat.smul (thickness * thickness * thickness / 12) C0).mulVec
                 ((formBmatrix 2 (Mat.zero 0 0) d2).2.mulVec eV)).map
                   fun a => -a) := by
  have hempty : eV.isEmpty = false := by
    cases eV with
    | nil => exact absurd rfl hne
    | cons a l => rfl
  have hB : (formBmatrix 2 (Mat.zero 0 0) d2 : Bool × Mat ℚ) =
      (true, (formBmatrix 2 (Mat.zero 0 0) d2).2) := by
    simp only [formBmatrix]
    rw [if_neg (by simp [h2, h3])]
  have hBcols : ((formBmatrix 2 (Mat.zero 0 0) d2).2 : Mat ℚ).cols
      = d2.n1 := by
    simp only [formBmatrix]
    rw [if_neg (by simp [h2, h3])]
    rfl
  have hBrows : ((formBmatrix 2 (Mat.zero 0 0) d2).2 : Mat ℚ).rows = 3 := by
    simp only [formBmatrix]
    rw [if_neg (by simp [h2, h3])]
    rfl
  unfold evalSol
  rw [hempty]
  simp only [Bool.false_eq_true, if_false]
  rw [if_neg (by simp [hlen])]
  rw [hB]
  simp only [formCmatrix, hmat]
  simp only [Bool.false_eq_true, if_false]
  rw [show Mat.mulVecOpt ((formBmatrix 2 (Mat.zero 0 0) d2).2) eV =
      some (((formBmatrix 2 (Mat.zero 0 0) d2).2).mulVec eV) from by
    unfold Mat.mulVecOpt
    rw [if_pos (hBcols.trans hlen.symm)]]
  dsimp only
  rw [show Mat.mulVecOpt
        (Mat.smul (thickness * thickness * thickness / 12) C0)
        ((((formBmatrix 2 (Mat.zero 0 0) d2).2).mulVec eV).map fun a => -a) =
      some ((Mat.smul (thickness * thickness * thickness / 12) C0).mulVec
        ((((formBmatrix 2 (Mat.zero 0 0) d2).2).mulVec eV).map fun a => -a))
      from by
    unfold Mat.mulVecOpt
    rw [if_pos (by
      simp [Mat.smul, Mat.length_mulVec, hBrows, hcols])]]
  rw [Mat.mulVec_map_neg]
  cases locSys with
  | none =>
    dsimp only
    refine ⟨_, rfl, ?_, rfl⟩
    simp [Mat.length_mulVec, Mat.smul, hrows]
  | some T =>
    cases toLocal with
    | false =>
      dsimp only
      refine ⟨_, rfl, ?_, rfl⟩
      simp [Mat.length_mulVec, Mat.smul, hrows]
    | true =>
      dsimp only
      refine ⟨_, rfl, ?_, rfl⟩
      rw [symTransform_length]
      simp [Mat.length_mulVec, Mat.smul, hrows]

/-- Witness for C1 at a concrete input: recovery on the biquadratic element
with the isotropic material (E = 1000, nu = 3/10) succeeds and yields a vector
of 3 stress-resultant components. -/
theorem claim_C1_witness :
    ∃ s, evalSol (LinIsotropic (1000 : ℚ) (3 / 10) 1) (1 / 10) none 2 eVQuad
      d2Quad Vec3.zero true = some s ∧ s.length = 3 := by
  obtain ⟨s, hs, hlen3, _⟩ := claim_C1 (LinIsotropic (1000 : ℚ) (3 / 10) 1)
    (1 / 10) none eVQuad d2Quad Vec3.zero true
    (Mat.smul ((1000 : ℚ) / (1 - 3 / 10 * (3 / 10)))
      ⟨3, 3, [[1, 3 / 10, 0], [3 / 10, 1, 0], [0, 0, (1 - 3 / 10) / 2]]⟩)
    (by simp [eVQuad]) (by simp [eVQuad, d2Quad]) rfl rfl rfl rfl rfl
  exact ⟨s, hs, hlen3⟩

/-- C6: without an analytical solution, element finalization changes no norm
slot; with one, finalization writes exactly the effectivity-index slots
9 + 6k (the last slot of each recovered-field block), setting each to
sqrt(recovery-error slot (5 + 6k) / base-group true-error slot 3), and the
per-point norm accumulation never modifies an effectivity-index slot (every
index that is at least 9 and congruent to 3 modulo 6 is left untouched by
evalInt when an analytical solution is bound). -/
theorem claim_C6 :
    (∀ l : List ℝ, finalizeElement false l = l) ∧
    (∀ (l : List ℝ) (k : Nat), 9 + 6 * k < l.length →
      (finalizeElement true l).getD (9 + 6 * k) 0 =
        Real.sqrt (l.getD (5 + 6 * k) 0 / l.getD 3 0)) ∧
    (∀ (l : List ℝ) (i : Nat), i % 6 ≠ 3 ∨ i < 9 →
      (finalizeElement true l).getD i 0 = l.getD i 0) ∧
    (∀ (material : Material ℝ) (thickness gravity : ℝ)
       (presFld : Option (Vec3 ℝ → ℝ)) (locSys : Option (Vec3 ℝ → Mat ℝ))
       (nsd : Nat) (f : Vec3 ℝ → List ℝ) (N : List ℝ) (d2 : Matrix3D ℝ)
       (detJxW : ℝ) (X : Vec3 ℝ) (pnorm out : ElmNorm ℝ),
      normEvalInt material thickness gravity presFld locSys nsd (some f) N d2
          detJxW X pnorm = some out →
      ∀ i, 9 ≤ i → i % 6 = 3 →
        out.values.getD i 0 = pnorm.values.getD i 0) := by
  refine ⟨?_, ?_, ?_, ?_⟩
  · intro l
    simp [finalizeElement]
  · intro l k h
    unfold finalizeElement
    rw [if_pos rfl, finalizeFrom_getD, if_pos ⟨by omega, by omega, h⟩]
    have e : 9 + 6 * k - 4 = 5 + 6 * k := by omega
    rw [e]
  · intro l i h
    unfold finalizeElement
    rw [if_pos rfl, finalizeFrom_getD, if_neg (by
      rintro ⟨h1, h2, h3⟩
      rcases h with h | h <;> omega)]
  · intro material thickness gravity presFld locSys nsd f N d2 detJxW X
      pnorm out h i h9 hm
    cases hC : formCmatrix material thickness X true with
    | none =>
      simp only [normEvalInt, hC] at h
      exact absurd h (by simp)
    | some Cinv =>
      cases hS : evalSol material thickness locSys nsd (pnorm.vec.headD [])
          d2 X false with
      | none =>
        simp only [normEvalInt, hC, hS] at h
        exact absurd h (by simp)
      | some mh =>
        simp only [normEvalInt, hC, hS, Option.map_some',
          Option.some.injEq] at h
        subst h
        dsimp only
        rw [normBlocks_getD _ _ _ _ _ _ _ _ 4 i (by omega) hm]
        rw [bump_getD_ne _ _ _ _ (by omega), bump_getD_ne _ _ _ _ (by omega)]
        split_ifs with hL
        · rw [bump_getD_ne _ _ _ _ (by omega),
            bump_getD_ne _ _ _ _ (by omega)]
        · rw [bump_getD_ne _ _ _ _ (by omega)]

/-- Witness for C6 at concrete inputs: on a 10-slot accumulator with true
error 1 in slot 3 and recovery error 1 in slot 5, finalization sets the
effectivity slot 9 to sqrt(1/1) = 1 and leaves slot 2 unchanged; and a
concrete per-point accumulation with an analytical solution bound leaves the
(out-of-range, hence 0-valued) effectivity slot 9 untouched. -/
theorem claim_C6_witness :
    (finalizeElement true [0, 0, 0, 1, 0, 1, 0, 0, 0, 42]).getD 9 0 = 1 ∧
    (finalizeElement true [0, 0, 0, 1, 0, 1, 0, 0, 0, 42]).getD 2 0 = 0 ∧
    (⟨[], [[1]], []⟩ : ElmNorm ℝ).values.getD 9 0 =
      (⟨[], [[1]], []⟩ : ElmNorm ℝ).values.getD 9 0 := by
  refine ⟨?_, ?_, ?_⟩
  · have h := claim_C6.2.1 [0, 0, 0, 1, 0, 1, 0, 0, 0, 42] 0 (by norm_num)
    norm_num at h
    simpa using h
  · have h := claim_C6.2.2.1 [0, 0, 0, 1, 0, 1, 0, 0, 0, 42] 2
      (Or.inr (by norm_num))
    rw [h]
    rfl
  · exact claim_C6.2.2.2
      (⟨fun _ _ => some ⟨1, 1, [[1]]⟩, fun _ => 0⟩ : Material ℝ)
      1 0 none none 1 (fun _ => [0]) [1] ⟨1, 1, 1, fun _ _ _ => 1⟩ 1
      Vec3.zero ⟨[], [[1]], []⟩ ⟨[], [[1]], []⟩
      (by simp [normEvalInt, formCmatrix, evalSol, formBmatrix,
        Mat.mulVecOpt, haveLoads, bump, normBlocks, Mat.ofFn, Mat.smul,
        Mat.mulVec, dotv, List.range_succ])
      9 (by norm_num) (by norm_num)

end KL
